import Mathlib

/-!
Formal model of the duplicate-detection engine of the fdupes_mime program
(src/file_list.c, src/duplicate_finder.c, src/defs.h), together with theorems
checking its specification.

Modelling conventions:
- C strings (NUL-terminated, no interior NUL) are modelled as `List Nat`, the
  list of their bytes; `strcmp` is translated from its standard byte-wise
  semantics, returning the sign of the first byte difference as -1/0/1.
- `off_t` file sizes are modelled as `Int`.
- File contents are byte lists; a `read` of up to `READ_BUFFER_SIZE` bytes of a
  regular file returns `min READ_BUFFER_SIZE remaining` bytes.
- I/O failures (open/read/close) and allocation failures (malloc/realloc/strdup)
  are modelled as explicit oracle parameters saying which call fails.
- The `while`/`for` loops are modelled by structural recursion on an explicit
  fuel argument that is always initialised to a bound that the loop cannot
  exceed (each recursive call both consumes one fuel and makes strict progress
  towards the loop's exit condition).
- `find_and_print_duplicates` is instrumented with an event trace recording the
  seeding of duplicate sets, every content-comparison with its result, and the
  two diagnostics (internal size-mismatch, skip-on-error). Emitted duplicate
  sets are recorded as lists of catalog indices (the code copies the records'
  fields into a fresh list; the index identifies the record copied).
-/

/-- Bytes of a C string / a file content. -/
abbrev Bytes := List Nat

/-- READ_BUFFER_SIZE from defs.h. -/
def READ_BUFFER_SIZE : Nat := 8192

/-- INITIAL_CAPACITY from file_list.c. -/
def INITIAL_CAPACITY : Nat := 16

/-- C strcmp on byte lists (sign only): the end of a string compares below any
byte, equal heads recurse. -/
def strcmp : Bytes → Bytes → Int
  | [], [] => 0
  | [], _ :: _ => -1
  | _ :: _, [] => 1
  | a :: as, b :: bs => if a < b then -1 else if b < a then 1 else strcmp as bs

/-- file_info_t from file_list.h. -/
structure file_info where
  path : Bytes
  size : Int
  mime_type : Bytes
  is_dup_of_prev : Bool
  processed_for_duplicates : Bool
deriving DecidableEq, Repr

instance : Inhabited file_info := ⟨⟨[], 0, [], false, false⟩⟩

/-- file_list_t from file_list.h: `items` holds the records (count =
items.length), `capacity` the allocated slot count. -/
structure file_list where
  items : List file_info
  capacity : Nat
deriving DecidableEq, Repr

/-- compare_file_info from file_list.c: primary key size, secondary strcmp on
path. -/
def compare_file_info (a b : file_info) : Int :=
  if a.size < b.size then -1
  else if b.size < a.size then 1
  else strcmp a.path b.path

/-- The non-strict order induced by the qsort comparator. -/
def fileLE (a b : file_info) : Prop := compare_file_info a b ≤ 0

instance : DecidableRel fileLE :=
  fun a b => inferInstanceAs (Decidable (compare_file_info a b ≤ 0))

/-- sort_file_list from file_list.c: NULL and fewer-than-2-record catalogs are
left untouched; otherwise qsort reorders the records by compare_file_info
(modelled by insertion sort, a sort for the same comparator). -/
def sort_file_list (l : Option file_list) : Option file_list :=
  match l with
  | none => none
  | some l =>
    if l.items.length < 2 then some l
    else some { l with items := List.insertionSort fileLE l.items }

/-- Record lookup with the C convention that the index is in range. -/
def getRec (recs : List file_info) (i : Nat) : file_info := (recs.get? i).getD default

/-- list->items[i]->processed_for_duplicates = 1. -/
def setProcessed (recs : List file_info) (i : Nat) : List file_info :=
  recs.set i { getRec recs i with processed_for_duplicates := true }

/-- The processed_for_duplicates flags of a catalog, as a function. -/
def flagsOf (recs : List file_info) (x : Nat) : Bool :=
  (getRec recs x).processed_for_duplicates

/-- Outcomes of the I/O calls of one compare_files_content invocation: whether
each open succeeds, whether the n-th read on each descriptor succeeds, and
whether each final close succeeds. -/
structure io_env where
  open1_ok : Bool
  open2_ok : Bool
  read1_ok : Nat → Bool
  read2_ok : Nat → Bool
  close1_ok : Bool
  close2_ok : Bool

/-- The environment of an invocation in which every I/O call succeeds. -/
def all_ok_env : io_env :=
  { open1_ok := true, open2_ok := true, read1_ok := fun _ => true,
    read2_ok := fun _ => true, close1_ok := true, close2_ok := true }

/-- The while(1) read loop of compare_files_content. A successful read on a
regular file returns min READ_BUFFER_SIZE remaining bytes. The fuel bound is
never reached when initialised to c1.length + 1, because every continuing
iteration consumes READ_BUFFER_SIZE > 0 bytes of c1. -/
def compare_chunks (r1ok r2ok : Nat → Bool) : Nat → Nat → Bytes → Bytes → Int
  | 0, _, _, _ => 0
  | fuel + 1, step, c1, c2 =>
    if r1ok step = false then -1
    else if r2ok step = false then -1
    else
      let bytes_read1 := min READ_BUFFER_SIZE c1.length
      let bytes_read2 := min READ_BUFFER_SIZE c2.length
      if bytes_read1 ≠ bytes_read2 then 0
      else if bytes_read1 = 0 then 1
      else if c1.take READ_BUFFER_SIZE ≠ c2.take READ_BUFFER_SIZE then 0
      else
        compare_chunks r1ok r2ok fuel (step + 1) (c1.drop READ_BUFFER_SIZE)
          (c2.drop READ_BUFFER_SIZE)

/-- The read loop started on the two byte streams. -/
def compare_loop (r1ok r2ok : Nat → Bool) (c1 c2 : Bytes) : Int :=
  compare_chunks r1ok r2ok (c1.length + 1) 0 c1 c2

/-- compare_files_content from duplicate_finder.c: open both files, run the
lockstep read loop, close both descriptors; a close failure downgrades an
"identical" verdict (1) to "error" (-1) and leaves 0 and -1 verdicts alone. -/
def compare_files_content (env : io_env) (c1 c2 : Bytes) : Int :=
  if env.open1_ok = false then -1
  else if env.open2_ok = false then -1
  else
    let result := compare_loop env.read1_ok env.read2_ok c1 c2
    if (env.close1_ok && env.close2_ok) = false ∧ result = 1 then -1
    else result

/-- Result of a call in a process that may abort: CHECK_ALLOC calls abort(),
every other path returns a value. -/
inductive cresult (α : Type) where
  | aborted
  | ret (v : α)
deriving DecidableEq, Repr

/-- Which allocation calls of one add_file_to_list invocation succeed. -/
structure alloc_env where
  realloc_ok : Bool
  malloc_ok : Bool
  strdup_path_ok : Bool
  strdup_mime_ok : Bool
deriving DecidableEq, Repr

/-- create_file_list from file_list.c: both allocations are guarded by
CHECK_ALLOC, which aborts the process on failure. -/
def create_file_list (malloc_list_ok malloc_items_ok : Bool) : cresult file_list :=
  if malloc_list_ok = false then .aborted
  else if malloc_items_ok = false then .aborted
  else .ret { items := [], capacity := INITIAL_CAPACITY }

/-- The tail of add_file_to_list after the capacity check: allocate the record,
strdup path and mime_type, freeing and returning -1 on failure, else append. -/
def add_record (env : alloc_env) (l : file_list) (path : Bytes) (size : Int)
    (mime : Bytes) : cresult (Int × Option file_list) :=
  if env.malloc_ok = false then .ret (-1, some l)
  else if env.strdup_path_ok = false then .ret (-1, some l)
  else if env.strdup_mime_ok = false then .ret (-1, some l)
  else
    .ret (0, some { l with items := l.items ++ [⟨path, size, mime, false, false⟩] })

/-- add_file_to_list from file_list.c: NULL list yields -1; at capacity the
item array is reallocated (doubling, or INITIAL_CAPACITY from 0), with a failed
realloc reported as -1 and the list left valid; then the record is allocated
and appended. -/
def add_file_to_list (env : alloc_env) (l : Option file_list) (path : Bytes)
    (size : Int) (mime : Bytes) : cresult (Int × Option file_list) :=
  match l with
  | none => .ret (-1, none)
  | some l =>
    if l.capacity ≤ l.items.length then
      if env.realloc_ok = false then .ret (-1, some l)
      else
        add_record env
          { l with capacity := if l.capacity = 0 then INITIAL_CAPACITY else l.capacity * 2 }
          path size mime
    else add_record env l path size mime

/-- Events of a find_and_print_duplicates run, in chronological order: a record
seeding a new candidate set (and being marked processed), a content comparison
of catalog indices j and k with the comparator's result, the internal
"File sizes differ within supposed same-size block" diagnostic, and the
"Skipping comparison due to error" diagnostic. -/
inductive ev where
  | seed (j : Nat)
  | cmpEv (j k : Nat) (res : Int)
  | sizeMismatch (j k : Nat)
  | skipErr (j k : Nat)
deriving DecidableEq, Repr

/-- The block-extension while loop of find_and_print_duplicates: extend be
while items[be+1] exists and has the block's size. -/
def block_end_loop (recs : List file_info) (cnt : Nat) (bsize : Int) : Nat → Nat → Nat
  | 0, be => be
  | fuel + 1, be =>
    if be + 1 < cnt ∧ (getRec recs (be + 1)).size = bsize then
      block_end_loop recs cnt bsize fuel (be + 1)
    else be

/-- block_end computed from block_start = bs. -/
def block_end (recs : List file_info) (bs : Nat) : Nat :=
  block_end_loop recs recs.length (getRec recs bs).size recs.length bs

/-- The inner k loop of find_and_print_duplicates, for k from its second
argument up to bend: skip processed records, emit the internal diagnostic on a
size mismatch, otherwise compare contents; an "identical" result appends k to
the current set and marks it processed, an "error" result emits the skip
diagnostic, a "different" result does nothing. Returns the updated records, the
indices appended to the current set, and the events, in order. -/
def k_scan (fcmp : file_info → file_info → Int) (j bend : Nat) :
    Nat → Nat → List file_info → List file_info × List Nat × List ev
  | 0, _, recs => (recs, [], [])
  | fuel + 1, k, recs =>
    if bend < k then (recs, [], [])
    else if (getRec recs k).processed_for_duplicates = true then
      k_scan fcmp j bend fuel (k + 1) recs
    else if (getRec recs j).size ≠ (getRec recs k).size then
      let r := k_scan fcmp j bend fuel (k + 1) recs
      (r.1, r.2.1, ev.sizeMismatch j k :: r.2.2)
    else
      let res := fcmp (getRec recs j) (getRec recs k)
      if res = 1 then
        let r := k_scan fcmp j bend fuel (k + 1) (setProcessed recs k)
        (r.1, k :: r.2.1, ev.cmpEv j k res :: r.2.2)
      else if res = -1 then
        let r := k_scan fcmp j bend fuel (k + 1) recs
        (r.1, r.2.1, ev.cmpEv j k res :: ev.skipErr j k :: r.2.2)
      else
        let r := k_scan fcmp j bend fuel (k + 1) recs
        (r.1, r.2.1, ev.cmpEv j k res :: r.2.2)

/-- The j loop of find_and_print_duplicates over a same-size block ending at
bend: skip processed records; otherwise seed a fresh set with j (create of the
set list aborts rather than fail, so the NULL check is dead), mark j processed,
run the k loop, and emit the set when it has more than one member. -/
def j_scan (fcmp : file_info → file_info → Int) (bend : Nat) :
    Nat → Nat → List file_info → List file_info × List (List Nat) × List ev
  | 0, _, recs => (recs, [], [])
  | fuel + 1, j, recs =>
    if bend < j then (recs, [], [])
    else if (getRec recs j).processed_for_duplicates = true then
      j_scan fcmp bend fuel (j + 1) recs
    else
      let rk := k_scan fcmp j bend (bend + 1) (j + 1) (setProcessed recs j)
      let dset := j :: rk.2.1
      let rj := j_scan fcmp bend fuel (j + 1) rk.1
      if 1 < dset.length then
        (rj.1, dset :: rj.2.1, (ev.seed j :: rk.2.2) ++ rj.2.2)
      else
        (rj.1, rj.2.1, (ev.seed j :: rk.2.2) ++ rj.2.2)

/-- The outer i loop of find_and_print_duplicates: skip processed records,
extend the same-size block, run the j loop when the block has at least two
members, and resume at block_end + 1. -/
def outer_scan (fcmp : file_info → file_info → Int) (cnt : Nat) :
    Nat → Nat → List file_info → List file_info × List (List Nat) × List ev
  | 0, _, recs => (recs, [], [])
  | fuel + 1, i, recs =>
    if cnt ≤ i then (recs, [], [])
    else if (getRec recs i).processed_for_duplicates = true then
      outer_scan fcmp cnt fuel (i + 1) recs
    else
      let be := block_end recs i
      if i < be then
        let rj := j_scan fcmp be (be + 1) i recs
        let ro := outer_scan fcmp cnt fuel (be + 1) rj.1
        (ro.1, rj.2.1 ++ ro.2.1, rj.2.2 ++ ro.2.2)
      else outer_scan fcmp cnt fuel (be + 1) recs

/-- Observable outcome of a find_and_print_duplicates run: the final records
(with their processed flags), the emitted duplicate sets as lists of catalog
indices in emission order, and the event trace. -/
structure dupOut where
  recs : List file_info
  sets : List (List Nat)
  tr : List ev
deriving DecidableEq, Repr

/-- find_and_print_duplicates from duplicate_finder.c, parametrised by the
content comparator fcmp (the environment of compare_files_content — the file
system and the I/O outcomes — determines fcmp's value on the two records'
paths). NULL or fewer-than-2-record catalogs return immediately. -/
def find_and_print_duplicates (fcmp : file_info → file_info → Int)
    (l : Option file_list) : dupOut :=
  match l with
  | none => ⟨[], [], []⟩
  | some l =>
    if l.items.length < 2 then ⟨l.items, [], []⟩
    else
      let r := outer_scan fcmp l.items.length l.items.length 0 l.items
      ⟨r.1, r.2.1, r.2.2⟩

/-- The comparator induced by a file system fs mapping each path to the content
of the file it denotes, with every I/O call succeeding. -/
def cmp_of (fs : Bytes → Bytes) (a b : file_info) : Int :=
  compare_files_content all_ok_env (fs a.path) (fs b.path)

/-- Event e reads record x's processed flag as a use: x is seeded, or x is the
target of a content comparison. -/
def usesEv (x : Nat) : ev → Prop
  | ev.seed j => x = j
  | ev.cmpEv _ k _ => x = k
  | _ => False

/-- Event e sets record x's processed flag: x is seeded, or x is the target of
a comparison whose result is "identical". -/
def marksEv (x : Nat) : ev → Prop
  | ev.seed j => x = j
  | ev.cmpEv _ k res => x = k ∧ res = 1
  | _ => False

/-- Set one flag in a flag assignment. -/
def setF (f : Nat → Bool) (j : Nat) : Nat → Bool := fun x => if x = j then true else f x

/-- The effect of one event on the processed flags. -/
def applyEvF (f : Nat → Bool) : ev → Nat → Bool
  | ev.seed j => setF f j
  | ev.cmpEv _ k res => if res = 1 then setF f k else f
  | _ => f

/-- A trace is consistent with a flag assignment when every event only uses
records whose flag is still clear at that point of the trace. -/
def ConsistentF : (Nat → Bool) → List ev → Prop
  | _, [] => True
  | f, e :: tr => (∀ x, usesEv x e → f x = false) ∧ ConsistentF (applyEvF f e) tr

/-- Recogniser of the internal size-mismatch diagnostic. -/
def isMismatch : ev → Bool
  | ev.sizeMismatch _ _ => true
  | _ => false

/-- The catalog is sorted as sort_file_list leaves it: every adjacent pair is
ordered by the qsort comparator (size ascending, then path). -/
def catalog_sorted : List file_info → Bool
  | [] => true
  | [_] => true
  | a :: b :: rest => decide (fileLE a b) && catalog_sorted (b :: rest)

/-- Equality of the immutable data fields of two records. -/
def dataEq (a b : file_info) : Prop :=
  a.path = b.path ∧ a.size = b.size ∧ a.mime_type = b.mime_type

/-- recs' is recs with at most some processing flags changed. -/
def SameData (recs recs' : List file_info) : Prop :=
  recs'.length = recs.length ∧ ∀ i, dataEq (getRec recs' i) (getRec recs i)

/-- Processing flags are never cleared going from recs to recs'. -/
def FlagsMono (recs recs' : List file_info) : Prop :=
  ∀ x, flagsOf recs x = true → flagsOf recs' x = true

section Strcmp

theorem strcmp_eq_zero_iff : ∀ a b : Bytes, strcmp a b = 0 ↔ a = b := by
  intro a
  induction a with
  | nil => intro b; cases b <;> simp [strcmp]
  | cons x xs ih =>
    intro b
    cases b with
    | nil => simp [strcmp]
    | cons y ys =>
      by_cases h1 : x < y
      · simp [strcmp, h1]
        intro h; omega
      · by_cases h2 : y < x
        · simp [strcmp, h1, h2]
          intro h; omega
        · have hxy : x = y := by omega
          simp [strcmp, h1, h2, hxy, ih]

theorem strcmp_neg_iff :
    ∀ a b : Bytes, strcmp a b < 0 ↔ List.Lex (fun x y : Nat => x < y) a b := by
  intro a
  induction a with
  | nil =>
    intro b
    cases b with
    | nil => simp [strcmp]
    | cons y ys =>
      simp only [strcmp]
      constructor
      · intro _; exact List.Lex.nil
      · intro _; omega
  | cons x xs ih =>
    intro b
    cases b with
    | nil =>
      simp [strcmp]
    | cons y ys =>
      by_cases h1 : x < y
      · simp [strcmp, h1]
        exact List.Lex.rel h1
      · by_cases h2 : y < x
        · simp [strcmp, h1, h2]
          intro h
          cases h with
          | cons h => omega
          | rel h => omega
        · have hxy : x = y := by omega
          subst hxy
          simp [strcmp, h1, h2, ih]
          constructor
          · exact fun h => List.Lex.cons h
          · intro h
            cases h with
            | cons h => exact h
            | rel h => omega

theorem strcmp_vals : ∀ a b : Bytes, strcmp a b = -1 ∨ strcmp a b = 0 ∨ strcmp a b = 1 := by
  intro a
  induction a with
  | nil => intro b; cases b <;> simp [strcmp]
  | cons x xs ih =>
    intro b
    cases b with
    | nil => simp [strcmp]
    | cons y ys =>
      by_cases h1 : x < y
      · simp [strcmp, h1]
      · by_cases h2 : y < x
        · simp [strcmp, h1, h2]
        · simp [strcmp, h1, h2, ih]

theorem strcmp_le_zero_iff (a b : Bytes) :
    strcmp a b ≤ 0 ↔ a = b ∨ List.Lex (fun x y : Nat => x < y) a b := by
  constructor
  · intro h
    rcases strcmp_vals a b with h1 | h1 | h1
    · exact Or.inr ((strcmp_neg_iff a b).1 (by omega))
    · exact Or.inl ((strcmp_eq_zero_iff a b).1 h1)
    · omega
  · rintro (h | h)
    · have := (strcmp_eq_zero_iff a b).2 h; omega
    · have := (strcmp_neg_iff a b).2 h; omega

theorem fileLE_iff (a b : file_info) :
    fileLE a b ↔
      a.size < b.size ∨
        (a.size = b.size ∧
          (a.path = b.path ∨ List.Lex (fun x y : Nat => x < y) a.path b.path)) := by
  unfold fileLE compare_file_info
  rcases lt_trichotomy a.size b.size with h | h | h
  · simp [h, not_lt.2 (le_of_lt h)]
  · simp [h, lt_irrefl, strcmp_le_zero_iff]
  · simp [not_lt.2 (le_of_lt h), h, not_lt_of_lt h]
    omega

instance : IsTrans file_info fileLE := by
  constructor
  intro a b c hab hbc
  rw [fileLE_iff] at *
  rcases hab with h1 | ⟨h1, hp1⟩
  · rcases hbc with h2 | ⟨h2, _⟩
    · exact Or.inl (lt_trans h1 h2)
    · exact Or.inl (h2 ▸ h1)
  · rcases hbc with h2 | ⟨h2, hp2⟩
    · exact Or.inl (h1 ▸ h2)
    · refine Or.inr ⟨h1.trans h2, ?_⟩
      rcases hp1 with hp1 | hp1
      · exact hp1 ▸ hp2
      · rcases hp2 with hp2 | hp2
        · exact Or.inr (hp2 ▸ hp1)
        · exact Or.inr (Trans.trans hp1 hp2)

instance : IsTotal file_info fileLE := by
  constructor
  intro a b
  rw [fileLE_iff, fileLE_iff]
  rcases lt_trichotomy a.size b.size with h | h | h
  · exact Or.inl (Or.inl h)
  · rcases trichotomous_of (List.Lex (fun x y : Nat => x < y)) a.path b.path with
      hp | hp | hp
    · exact Or.inl (Or.inr ⟨h, Or.inr hp⟩)
    · exact Or.inl (Or.inr ⟨h, Or.inl hp⟩)
    · exact Or.inr (Or.inr ⟨h.symm, Or.inr hp⟩)
  · exact Or.inr (Or.inl h)

end Strcmp

theorem getRec_eq_get (recs : List file_info) (i : Nat) (h : i < recs.length) :
    getRec recs i = recs.get ⟨i, h⟩ := by
  simp [getRec, List.getElem?_eq_getElem h]

/-- The claim C2: sort_file_list returns a permutation of the catalog ordered by
size ascending and, at equal sizes, by byte-wise lexicographic path order. -/
theorem sort_file_list_sorted_perm (l l' : file_list)
    (h : sort_file_list (some l) = some l') :
    l'.items.Perm l.items ∧
      ∀ i, i + 1 < l'.items.length →
        (getRec l'.items i).size ≤ (getRec l'.items (i + 1)).size ∧
          ((getRec l'.items i).size = (getRec l'.items (i + 1)).size →
            (getRec l'.items i).path = (getRec l'.items (i + 1)).path ∨
              List.Lex (fun x y : Nat => x < y) (getRec l'.items i).path
                (getRec l'.items (i + 1)).path) := by
  unfold sort_file_list at h
  by_cases hlen : l.items.length < 2
  · simp [hlen] at h
    subst h
    refine ⟨List.Perm.refl _, ?_⟩
    intro i hi
    omega
  · simp [hlen] at h
    have hitems : l'.items = List.insertionSort fileLE l.items := by
      rw [← h]
    have hperm : l'.items.Perm l.items := by
      rw [hitems]; exact List.perm_insertionSort fileLE l.items
    refine ⟨hperm, ?_⟩
    intro i hi
    have hsorted : List.Sorted fileLE l'.items := by
      rw [hitems]; exact List.sorted_insertionSort fileLE l.items
    have hrel : fileLE (getRec l'.items i) (getRec l'.items (i + 1)) := by
      rw [getRec_eq_get _ _ (by omega), getRec_eq_get _ _ hi]
      exact hsorted.rel_get_of_lt (by simp [Fin.lt_def])
    rw [fileLE_iff] at hrel
    rcases hrel with h1 | ⟨h1, h2⟩
    · exact ⟨le_of_lt h1, fun hc => absurd hc (by omega)⟩
    · exact ⟨le_of_eq h1, fun _ => h2⟩

section Comparator

theorem compare_chunks_all_ok :
    ∀ (fuel step : Nat) (c1 c2 : Bytes), c1.length < fuel →
      compare_chunks (fun _ => true) (fun _ => true) fuel step c1 c2 =
        if c1 = c2 then 1 else 0 := by
  intro fuel
  induction fuel with
  | zero => intro step c1 c2 h; omega
  | succ fuel ih =>
    intro step c1 c2 h
    simp only [compare_chunks]
    by_cases hn : min READ_BUFFER_SIZE c1.length = min READ_BUFFER_SIZE c2.length
    · by_cases h0 : min READ_BUFFER_SIZE c1.length = 0
      · have hc1 : c1 = [] := by
          have : c1.length = 0 := by
            have hb : 0 < READ_BUFFER_SIZE := by simp [READ_BUFFER_SIZE]
            omega
          exact List.length_eq_zero.1 this
        have hc2 : c2 = [] := by
          have : c2.length = 0 := by
            have hb : 0 < READ_BUFFER_SIZE := by simp [READ_BUFFER_SIZE]
            omega
          exact List.length_eq_zero.1 this
        subst hc1; subst hc2
        simp
      · by_cases htake : c1.take READ_BUFFER_SIZE = c2.take READ_BUFFER_SIZE
        · have hlen : (c1.drop READ_BUFFER_SIZE).length < fuel := by
            have hb : 0 < READ_BUFFER_SIZE := by simp [READ_BUFFER_SIZE]
            have : 0 < c1.length := by omega
            simp only [List.length_drop]
            omega
          rw [if_neg (by simp), if_neg (by simp), if_neg (by simpa using hn),
            if_neg h0, if_neg (by simpa using htake), ih _ _ _ hlen]
          have hiff : c1.drop READ_BUFFER_SIZE = c2.drop READ_BUFFER_SIZE ↔ c1 = c2 := by
            constructor
            · intro hd
              have := List.take_append_drop READ_BUFFER_SIZE c1
              rw [← this, htake, hd, List.take_append_drop]
            · intro he; rw [he]
          rw [if_congr hiff rfl rfl]
        · have hne : c1 ≠ c2 := fun he => htake (by rw [he])
          rw [if_neg (by simp), if_neg (by simp), if_neg (by simpa using hn),
            if_neg h0, if_pos htake, if_neg hne]
    · have hne : c1 ≠ c2 := fun he => hn (by rw [he])
      simp [hn, hne]

/-- The claim C3: with both files readable and every I/O call succeeding, the
Content Comparator returns "identical" (1) exactly when the two byte streams
agree chunk-for-chunk and are exhausted simultaneously, i.e. are equal —
including two empty files — and returns "different" (0) exactly when they are
not (a byte mismatch or a short read on one side stops the loop with 0). -/
theorem compare_files_content_all_ok (c1 c2 : Bytes) :
    (compare_files_content all_ok_env c1 c2 = 1 ↔ c1 = c2) ∧
      (compare_files_content all_ok_env c1 c2 = 0 ↔ c1 ≠ c2) ∧
      compare_files_content all_ok_env [] [] = 1 := by
  have hcore : ∀ a b : Bytes,
      compare_files_content all_ok_env a b = if a = b then 1 else 0 := by
    intro a b
    simp only [compare_files_content, all_ok_env, compare_loop]
    rw [compare_chunks_all_ok _ 0 a b (by omega)]
    by_cases h : a = b <;> simp [h]
  refine ⟨?_, ?_, ?_⟩
  · rw [hcore]; by_cases h : c1 = c2 <;> simp [h]
  · rw [hcore]; by_cases h : c1 = c2 <;> simp [h]
  · rw [hcore]; simp

/-- The claim C5: when both opens succeed, a close failure downgrades an
"identical" (1) verdict of the read loop to "error" (-1), while a "different"
(0) or "error" (-1) verdict of the loop is returned unchanged; with both closes
succeeding the loop's verdict is returned as is. -/
theorem compare_files_content_close_downgrade (env : io_env) (c1 c2 : Bytes)
    (h1 : env.open1_ok = true) (h2 : env.open2_ok = true) :
    ((env.close1_ok && env.close2_ok) = false →
        (compare_loop env.read1_ok env.read2_ok c1 c2 = 1 →
            compare_files_content env c1 c2 = -1) ∧
          (compare_loop env.read1_ok env.read2_ok c1 c2 ≠ 1 →
            compare_files_content env c1 c2 =
              compare_loop env.read1_ok env.read2_ok c1 c2)) ∧
      ((env.close1_ok && env.close2_ok) = true →
        compare_files_content env c1 c2 =
          compare_loop env.read1_ok env.read2_ok c1 c2) := by
  constructor
  · intro hc
    constructor
    · intro hr
      simp [compare_files_content, h1, h2, hc, hr]
    · intro hr
      simp [compare_files_content, h1, h2, hc, hr]
  · intro hc
    simp [compare_files_content, h1, h2, hc]

/-- Witness for C5 at a concrete input: all-empty files compare as identical,
and a failing close of the first descriptor downgrades the verdict to -1. -/
theorem compare_files_content_close_downgrade_witness :
    (io_env.mk true true (fun _ => true) (fun _ => true) false true).open1_ok = true ∧
      ((io_env.mk true true (fun _ => true) (fun _ => true) false true).close1_ok &&
          (io_env.mk true true (fun _ => true) (fun _ => true) false true).close2_ok) = false ∧
      compare_loop (fun _ => true) (fun _ => true) ([] : Bytes) ([] : Bytes) = 1 ∧
      compare_files_content
        (io_env.mk true true (fun _ => true) (fun _ => true) false true) [] [] = -1 :=
  ⟨rfl, by decide, by decide,
    ((compare_files_content_close_downgrade
        (io_env.mk true true (fun _ => true) (fun _ => true) false true) [] []
        rfl rfl).1 (by decide)).1 (by decide)⟩

end Comparator

section FileListOps

/-- Counterexample to the claim C6 as stated: with the catalog at capacity and
realloc failing, add_file_to_list does not abort the run; it returns -1 and
leaves the catalog unchanged, and the caller continues. -/
theorem add_file_to_list_growth_alloc_counterexample :
    (file_list.mk [⟨[1], 5, [2], false, false⟩] 1).capacity ≤
        (file_list.mk [⟨[1], 5, [2], false, false⟩] 1).items.length ∧
      (alloc_env.mk false true true true).realloc_ok = false ∧
      add_file_to_list (alloc_env.mk false true true true)
          (some (file_list.mk [⟨[1], 5, [2], false, false⟩] 1)) [3] 7 [4] =
        cresult.ret (-1, some (file_list.mk [⟨[1], 5, [2], false, false⟩] 1)) ∧
      add_file_to_list (alloc_env.mk false true true true)
          (some (file_list.mk [⟨[1], 5, [2], false, false⟩] 1)) [3] 7 [4] ≠
        cresult.aborted := by
  decide

/-- The claim C6 as amended: an allocation failure while growing the catalog is
not fatal — add_file_to_list reports it by returning -1 and leaves the catalog
unchanged (only catalog creation, create_file_list, aborts the process on
allocation failure, via CHECK_ALLOC). -/
theorem add_file_to_list_growth_alloc (env : alloc_env) (l : file_list)
    (path : Bytes) (size : Int) (mime : Bytes)
    (hfull : l.capacity ≤ l.items.length) (hre : env.realloc_ok = false) :
    add_file_to_list env (some l) path size mime = cresult.ret (-1, some l) ∧
      (∀ b : Bool, create_file_list false b = cresult.aborted) ∧
      create_file_list true false = cresult.aborted := by
  refine ⟨?_, ?_, ?_⟩
  · simp [add_file_to_list, hfull, hre]
  · intro b; rfl
  · rfl

/-- Witness for the amended C6 at a concrete input. -/
theorem add_file_to_list_growth_alloc_witness :
    (file_list.mk [⟨[1], 5, [2], false, false⟩] 1).capacity ≤
        (file_list.mk [⟨[1], 5, [2], false, false⟩] 1).items.length ∧
      (alloc_env.mk false true true true).realloc_ok = false ∧
      add_file_to_list (alloc_env.mk false true true true)
          (some (file_list.mk [⟨[1], 5, [2], false, false⟩] 1)) [3] 7 [4] =
        cresult.ret (-1, some (file_list.mk [⟨[1], 5, [2], false, false⟩] 1)) :=
  ⟨by decide, rfl,
    (add_file_to_list_growth_alloc (alloc_env.mk false true true true)
        (file_list.mk [⟨[1], 5, [2], false, false⟩] 1) [3] 7 [4] (by decide) rfl).1⟩

/-- The claim C8: add_file_to_list on a catalog never aborts; it returns 0 or
-1, and on -1 the stored records (count included) are exactly the old ones, so
no partially initialised record is left behind. -/
theorem add_file_to_list_failure_unchanged (env : alloc_env) (l : file_list)
    (path : Bytes) (size : Int) (mime : Bytes) :
    ∃ r l', add_file_to_list env (some l) path size mime = cresult.ret (r, some l') ∧
      (r = -1 → l'.items = l.items) ∧ (r = 0 ∨ r = -1) := by
  simp only [add_file_to_list, add_record]
  split_ifs <;> exact ⟨_, _, rfl, by simp, by simp⟩

/-- Witness for C8 at a concrete input with a failing record allocation. -/
theorem add_file_to_list_failure_unchanged_witness :
    ∃ r l', add_file_to_list (alloc_env.mk true false true true)
        (some (file_list.mk [] 16)) [1] 2 [3] = cresult.ret (r, some l') ∧
      (r = -1 → l'.items = (file_list.mk [] 16).items) ∧ (r = 0 ∨ r = -1) :=
  add_file_to_list_failure_unchanged (alloc_env.mk true false true true)
    (file_list.mk [] 16) [1] 2 [3]

/-- The claim C10: the public operations are total and crash-free on a NULL
list — add_file_to_list returns -1, sort_file_list and find_and_print_duplicates
return with no effect — and sort_file_list is a no-op on catalogs with fewer
than 2 records. -/
theorem null_list_operations (env : alloc_env) (fcmp : file_info → file_info → Int)
    (path : Bytes) (size : Int) (mime : Bytes) (l : file_list) :
    add_file_to_list env none path size mime = cresult.ret (-1, none) ∧
      sort_file_list none = none ∧
      find_and_print_duplicates fcmp none = dupOut.mk [] [] [] ∧
      (l.items.length < 2 → sort_file_list (some l) = some l) := by
  refine ⟨rfl, rfl, rfl, fun h => ?_⟩
  simp [sort_file_list, h]

/-- Witness for C10 at a concrete input: a one-record catalog is left untouched
by sort_file_list. -/
theorem null_list_operations_witness :
    (file_list.mk [⟨[1], 5, [2], false, false⟩] 16).items.length < 2 ∧
      sort_file_list (some (file_list.mk [⟨[1], 5, [2], false, false⟩] 16)) =
        some (file_list.mk [⟨[1], 5, [2], false, false⟩] 16) :=
  ⟨by decide,
    (null_list_operations (alloc_env.mk true true true true) (fun _ _ => 0) [] 0 []
        (file_list.mk [⟨[1], 5, [2], false, false⟩] 16)).2.2.2 (by decide)⟩

/-- Witness for C2 at a concrete input: a two-record catalog out of order is
sorted, and the adjacent-pair conditions hold there. -/
theorem sort_file_list_sorted_perm_witness :
    sort_file_list
        (some (file_list.mk
          [⟨[2], 2, [], false, false⟩, ⟨[1], 1, [], false, false⟩] 4)) =
      some (file_list.mk
        [⟨[1], 1, [], false, false⟩, ⟨[2], 2, [], false, false⟩] 4) ∧
      (getRec (file_list.mk
          [⟨[1], 1, [], false, false⟩, ⟨[2], 2, [], false, false⟩] 4).items 0).size ≤
        (getRec (file_list.mk
          [⟨[1], 1, [], false, false⟩, ⟨[2], 2, [], false, false⟩] 4).items 1).size :=
  ⟨by decide,
    ((sort_file_list_sorted_perm
        (file_list.mk [⟨[2], 2, [], false, false⟩, ⟨[1], 1, [], false, false⟩] 4)
        (file_list.mk [⟨[1], 1, [], false, false⟩, ⟨[2], 2, [], false, false⟩] 4)
        (by decide)).2 0 (by decide)).1⟩

end FileListOps

section GrouperState

theorem dataEq_refl (a : file_info) : dataEq a a := ⟨rfl, rfl, rfl⟩

theorem dataEq_trans {a b c : file_info} (h1 : dataEq a b) (h2 : dataEq b c) :
    dataEq a c :=
  ⟨h1.1.trans h2.1, h1.2.1.trans h2.2.1, h1.2.2.trans h2.2.2⟩

theorem sameData_refl (recs : List file_info) : SameData recs recs :=
  ⟨rfl, fun _ => dataEq_refl _⟩

theorem sameData_trans {r1 r2 r3 : List file_info} (h1 : SameData r1 r2)
    (h2 : SameData r2 r3) : SameData r1 r3 :=
  ⟨h2.1.trans h1.1, fun i => dataEq_trans (h2.2 i) (h1.2 i)⟩

theorem getRec_setProcessed (recs : List file_info) (k i : Nat) :
    getRec (setProcessed recs k) i =
      if k = i ∧ k < recs.length then
        { getRec recs k with processed_for_duplicates := true }
      else getRec recs i := by
  simp only [setProcessed, getRec, List.get?_eq_getElem?, List.getElem?_set]
  by_cases h1 : k = i
  · subst h1
    by_cases h2 : k < recs.length
    · simp [h2]
    · simp [h2, List.getElem?_eq_none (by omega : recs.length ≤ k)]
  · simp [h1]

theorem sameData_setProcessed (recs : List file_info) (k : Nat) :
    SameData recs (setProcessed recs k) := by
  refine ⟨by simp [setProcessed], fun i => ?_⟩
  rw [getRec_setProcessed]
  by_cases h : k = i ∧ k < recs.length
  · rcases h with ⟨h1, h2⟩
    subst h1
    simp [dataEq, h2]
  · simp [h, dataEq_refl]

theorem flagsMono_refl (recs : List file_info) : FlagsMono recs recs := fun _ h => h

theorem flagsMono_trans {r1 r2 r3 : List file_info} (h1 : FlagsMono r1 r2)
    (h2 : FlagsMono r2 r3) : FlagsMono r1 r3 := fun x h => h2 x (h1 x h)

theorem flagsMono_setProcessed (recs : List file_info) (k : Nat) :
    FlagsMono recs (setProcessed recs k) := by
  intro x h
  simp only [flagsOf] at *
  rw [getRec_setProcessed]
  by_cases hc : k = x ∧ k < recs.length
  · obtain ⟨h1, h2⟩ := hc
    subst h1
    simp [h2]
  · simp [hc, h]

theorem flagsOf_setProcessed_of_lt (recs : List file_info) (k : Nat)
    (h : k < recs.length) : flagsOf (setProcessed recs k) = setF (flagsOf recs) k := by
  funext x
  simp only [flagsOf, setF]
  rw [getRec_setProcessed]
  by_cases hx : x = k
  · subst hx; simp [h]
  · have hck : ¬(k = x ∧ k < recs.length) := fun hc => hx hc.1.symm
    simp [hx, hck]

theorem flags_false_mono {r1 r2 : List file_info} (h : FlagsMono r1 r2) (x : Nat)
    (hf : flagsOf r2 x = false) : flagsOf r1 x = false := by
  cases hb : flagsOf r1 x
  · rfl
  · rw [h x hb] at hf; exact absurd hf (by simp)

theorem sameData_size {r1 r2 : List file_info} (h : SameData r1 r2) (i : Nat) :
    (getRec r2 i).size = (getRec r1 i).size := (h.2 i).2.1

theorem sameData_path {r1 r2 : List file_info} (h : SameData r1 r2) (i : Nat) :
    (getRec r2 i).path = (getRec r1 i).path := (h.2 i).1

end GrouperState

section TraceLemmas

theorem consistentF_append :
    ∀ (t1 : List ev) (f : Nat → Bool) (t2 : List ev),
      ConsistentF f (t1 ++ t2) ↔
        ConsistentF f t1 ∧ ConsistentF (List.foldl applyEvF f t1) t2 := by
  intro t1
  induction t1 with
  | nil => intro f t2; simp [ConsistentF]
  | cons e t ih =>
    intro f t2
    simp only [List.cons_append, ConsistentF, List.foldl_cons, and_assoc]
    exact and_congr_right fun _ => ih (applyEvF f e) t2

theorem applyEvF_mono (f : Nat → Bool) (e : ev) (x : Nat) (h : f x = true) :
    applyEvF f e x = true := by
  cases e with
  | seed j =>
    simp only [applyEvF, setF]
    by_cases hx : x = j <;> simp [hx, h]
  | cmpEv j k res =>
    simp only [applyEvF, setF]
    by_cases hr : res = 1
    · by_cases hx : x = k <;> simp [hr, hx, h, setF]
    · simp [hr, h]
  | sizeMismatch j k => simpa [applyEvF] using h
  | skipErr j k => simpa [applyEvF] using h

theorem foldl_applyEvF_mono (tr : List ev) :
    ∀ (f : Nat → Bool) (x : Nat), f x = true →
      List.foldl applyEvF f tr x = true := by
  induction tr with
  | nil => intro f x h; simpa using h
  | cons e t ih =>
    intro f x h
    simpa using ih (applyEvF f e) x (applyEvF_mono f e x h)

theorem marksEv_applyEvF (f : Nat → Bool) (e : ev) (x : Nat) (h : marksEv x e) :
    applyEvF f e x = true := by
  cases e with
  | seed j =>
    simp only [marksEv] at h
    simp [applyEvF, setF, h]
  | cmpEv j k res =>
    simp only [marksEv] at h
    simp [applyEvF, setF, h.1, h.2]
  | sizeMismatch j k => exact absurd h (by simp [marksEv])
  | skipErr j k => exact absurd h (by simp [marksEv])

theorem consistentF_no_reuse (t1 : List ev) (f : Nat → Bool) (e : ev) (t2 : List ev)
    (e2 : ev) (t3 : List ev) (h : ConsistentF f (t1 ++ e :: (t2 ++ e2 :: t3)))
    (x : Nat) (hm : marksEv x e) : ¬ usesEv x e2 := by
  intro hu
  rw [consistentF_append] at h
  obtain ⟨-, h⟩ := h
  simp only [ConsistentF] at h
  obtain ⟨-, h⟩ := h
  rw [consistentF_append] at h
  obtain ⟨-, h⟩ := h
  simp only [ConsistentF] at h
  have hfalse := h.1 x hu
  have htrue := foldl_applyEvF_mono t2 _ x
    (marksEv_applyEvF (List.foldl applyEvF f t1) e x hm)
  rw [htrue] at hfalse
  exact absurd hfalse (by simp)

theorem consistentF_flagged_unused :
    ∀ (tr : List ev) (f : Nat → Bool) (x : Nat), ConsistentF f tr → f x = true →
      ∀ e ∈ tr, ¬ usesEv x e := by
  intro tr
  induction tr with
  | nil => intro f x _ _ e he; simp at he
  | cons e t ih =>
    intro f x h hf e2 he2 hu
    simp only [ConsistentF] at h
    rcases List.mem_cons.1 he2 with rfl | hmem
    · rw [h.1 x hu] at hf; exact absurd hf (by simp)
    · exact ih (applyEvF f e) x h.2 (applyEvF_mono f e x hf) e2 hmem hu

end TraceLemmas

section StepEquations

theorem k_scan_stop (fcmp : file_info → file_info → Int) (j bend fuel k : Nat)
    (recs : List file_info) (h1 : bend < k) :
    k_scan fcmp j bend (fuel + 1) k recs = (recs, [], []) := by
  simp [k_scan, h1]

theorem k_scan_skip (fcmp : file_info → file_info → Int) (j bend fuel k : Nat)
    (recs : List file_info) (h1 : ¬bend < k)
    (h2 : (getRec recs k).processed_for_duplicates = true) :
    k_scan fcmp j bend (fuel + 1) k recs = k_scan fcmp j bend fuel (k + 1) recs := by
  simp [k_scan, h1, h2]

theorem k_scan_mismatch_step (fcmp : file_info → file_info → Int) (j bend fuel k : Nat)
    (recs : List file_info) (h1 : ¬bend < k)
    (h2 : (getRec recs k).processed_for_duplicates = false)
    (h3 : (getRec recs j).size ≠ (getRec recs k).size) :
    k_scan fcmp j bend (fuel + 1) k recs =
      ((k_scan fcmp j bend fuel (k + 1) recs).1,
        (k_scan fcmp j bend fuel (k + 1) recs).2.1,
        ev.sizeMismatch j k :: (k_scan fcmp j bend fuel (k + 1) recs).2.2) := by
  simp [k_scan, h1, h2, h3]

theorem k_scan_ident_step (fcmp : file_info → file_info → Int) (j bend fuel k : Nat)
    (recs : List file_info) (h1 : ¬bend < k)
    (h2 : (getRec recs k).processed_for_duplicates = false)
    (h3 : (getRec recs j).size = (getRec recs k).size)
    (h4 : fcmp (getRec recs j) (getRec recs k) = 1) :
    k_scan fcmp j bend (fuel + 1) k recs =
      ((k_scan fcmp j bend fuel (k + 1) (setProcessed recs k)).1,
        k :: (k_scan fcmp j bend fuel (k + 1) (setProcessed recs k)).2.1,
        ev.cmpEv j k 1 ::
          (k_scan fcmp j bend fuel (k + 1) (setProcessed recs k)).2.2) := by
  simp [k_scan, h1, h2, h3, h4]

/-- The claim C4 (local step of the inner scan): when the comparator reports
"error" (-1) on the pair (j, k) of a same-size block, the records are not
touched — k is neither added to the current duplicate set nor marked
processed — the comparison and the skip diagnostic are recorded, and the scan
continues with the next candidate k + 1; no comparator error terminates the
run, which proceeds exactly as the scan from k + 1. -/
theorem k_scan_error_step (fcmp : file_info → file_info → Int) (j bend fuel k : Nat)
    (recs : List file_info) (h1 : ¬bend < k)
    (h2 : (getRec recs k).processed_for_duplicates = false)
    (h3 : (getRec recs j).size = (getRec recs k).size)
    (h4 : fcmp (getRec recs j) (getRec recs k) = -1) :
    k_scan fcmp j bend (fuel + 1) k recs =
      ((k_scan fcmp j bend fuel (k + 1) recs).1,
        (k_scan fcmp j bend fuel (k + 1) recs).2.1,
        ev.cmpEv j k (-1) :: ev.skipErr j k ::
          (k_scan fcmp j bend fuel (k + 1) recs).2.2) := by
  simp [k_scan, h1, h2, h3, h4]

theorem k_scan_diff_step (fcmp : file_info → file_info → Int) (j bend fuel k : Nat)
    (recs : List file_info) (h1 : ¬bend < k)
    (h2 : (getRec recs k).processed_for_duplicates = false)
    (h3 : (getRec recs j).size = (getRec recs k).size)
    (h4 : fcmp (getRec recs j) (getRec recs k) ≠ 1)
    (h5 : fcmp (getRec recs j) (getRec recs k) ≠ -1) :
    k_scan fcmp j bend (fuel + 1) k recs =
      ((k_scan fcmp j bend fuel (k + 1) recs).1,
        (k_scan fcmp j bend fuel (k + 1) recs).2.1,
        ev.cmpEv j k (fcmp (getRec recs j) (getRec recs k)) ::
          (k_scan fcmp j bend fuel (k + 1) recs).2.2) := by
  simp [k_scan, h1, h2, h3, h4, h5]

theorem j_scan_stop (fcmp : file_info → file_info → Int) (bend fuel j : Nat)
    (recs : List file_info) (h1 : bend < j) :
    j_scan fcmp bend (fuel + 1) j recs = (recs, [], []) := by
  simp [j_scan, h1]

theorem j_scan_skip (fcmp : file_info → file_info → Int) (bend fuel j : Nat)
    (recs : List file_info) (h1 : ¬bend < j)
    (h2 : (getRec recs j).processed_for_duplicates = true) :
    j_scan fcmp bend (fuel + 1) j recs = j_scan fcmp bend fuel (j + 1) recs := by
  simp [j_scan, h1, h2]

theorem j_scan_seed_step (fcmp : file_info → file_info → Int) (bend fuel j : Nat)
    (recs : List file_info) (h1 : ¬bend < j)
    (h2 : (getRec recs j).processed_for_duplicates = false) :
    j_scan fcmp bend (fuel + 1) j recs =
      if 1 < (j :: (k_scan fcmp j bend (bend + 1) (j + 1) (setProcessed recs j)).2.1).length
      then
        ((j_scan fcmp bend fuel (j + 1)
            (k_scan fcmp j bend (bend + 1) (j + 1) (setProcessed recs j)).1).1,
          (j :: (k_scan fcmp j bend (bend + 1) (j + 1) (setProcessed recs j)).2.1) ::
            (j_scan fcmp bend fuel (j + 1)
              (k_scan fcmp j bend (bend + 1) (j + 1) (setProcessed recs j)).1).2.1,
          (ev.seed j :: (k_scan fcmp j bend (bend + 1) (j + 1) (setProcessed recs j)).2.2) ++
            (j_scan fcmp bend fuel (j + 1)
              (k_scan fcmp j bend (bend + 1) (j + 1) (setProcessed recs j)).1).2.2)
      else
        ((j_scan fcmp bend fuel (j + 1)
            (k_scan fcmp j bend (bend + 1) (j + 1) (setProcessed recs j)).1).1,
          (j_scan fcmp bend fuel (j + 1)
            (k_scan fcmp j bend (bend + 1) (j + 1) (setProcessed recs j)).1).2.1,
          (ev.seed j :: (k_scan fcmp j bend (bend + 1) (j + 1) (setProcessed recs j)).2.2) ++
            (j_scan fcmp bend fuel (j + 1)
              (k_scan fcmp j bend (bend + 1) (j + 1) (setProcessed recs j)).1).2.2) := by
  have h2' : ¬((getRec recs j).processed_for_duplicates = true) := by simp [h2]
  simp only [j_scan, if_neg h1, if_neg h2']

theorem outer_scan_stop (fcmp : file_info → file_info → Int) (cnt fuel i : Nat)
    (recs : List file_info) (h1 : cnt ≤ i) :
    outer_scan fcmp cnt (fuel + 1) i recs = (recs, [], []) := by
  simp [outer_scan, h1]

theorem outer_scan_skip (fcmp : file_info → file_info → Int) (cnt fuel i : Nat)
    (recs : List file_info) (h1 : ¬cnt ≤ i)
    (h2 : (getRec recs i).processed_for_duplicates = true) :
    outer_scan fcmp cnt (fuel + 1) i recs = outer_scan fcmp cnt fuel (i + 1) recs := by
  simp [outer_scan, h1, h2]

theorem outer_scan_block_step (fcmp : file_info → file_info → Int) (cnt fuel i : Nat)
    (recs : List file_info) (h1 : ¬cnt ≤ i)
    (h2 : (getRec recs i).processed_for_duplicates = false)
    (h3 : i < block_end recs i) :
    outer_scan fcmp cnt (fuel + 1) i recs =
      ((outer_scan fcmp cnt fuel (block_end recs i + 1)
          (j_scan fcmp (block_end recs i) (block_end recs i + 1) i recs).1).1,
        (j_scan fcmp (block_end recs i) (block_end recs i + 1) i recs).2.1 ++
          (outer_scan fcmp cnt fuel (block_end recs i + 1)
            (j_scan fcmp (block_end recs i) (block_end recs i + 1) i recs).1).2.1,
        (j_scan fcmp (block_end recs i) (block_end recs i + 1) i recs).2.2 ++
          (outer_scan fcmp cnt fuel (block_end recs i + 1)
            (j_scan fcmp (block_end recs i) (block_end recs i + 1) i recs).1).2.2) := by
  simp [outer_scan, h1, h2, h3]

theorem outer_scan_single_step (fcmp : file_info → file_info → Int) (cnt fuel i : Nat)
    (recs : List file_info) (h1 : ¬cnt ≤ i)
    (h2 : (getRec recs i).processed_for_duplicates = false)
    (h3 : ¬i < block_end recs i) :
    outer_scan fcmp cnt (fuel + 1) i recs =
      outer_scan fcmp cnt fuel (block_end recs i + 1) recs := by
  simp [outer_scan, h1, h2, h3]

end StepEquations

section KScanSpec

theorem k_scan_spec (fcmp : file_info → file_info → Int)
    (R : file_info → file_info → Prop)
    (hR : ∀ a b, fcmp a b = 1 → R a b)
    (hRd : ∀ a a' b b', dataEq a a' → dataEq b b' → R a b → R a' b') (j bend : Nat) :
    ∀ (fuel k : Nat) (recs : List file_info), bend < recs.length →
      SameData recs (k_scan fcmp j bend fuel k recs).1 ∧
      FlagsMono recs (k_scan fcmp j bend fuel k recs).1 ∧
      (∀ x ∈ (k_scan fcmp j bend fuel k recs).2.1,
        k ≤ x ∧ x ≤ bend ∧ flagsOf recs x = false ∧
          flagsOf (k_scan fcmp j bend fuel k recs).1 x = true ∧
          (getRec recs x).size = (getRec recs j).size ∧
          R (getRec recs j) (getRec recs x)) ∧
      (k_scan fcmp j bend fuel k recs).2.1.Nodup ∧
      ConsistentF (flagsOf recs) (k_scan fcmp j bend fuel k recs).2.2 ∧
      flagsOf (k_scan fcmp j bend fuel k recs).1 =
        List.foldl applyEvF (flagsOf recs) (k_scan fcmp j bend fuel k recs).2.2 := by
  intro fuel
  induction fuel with
  | zero =>
    intro k recs _
    simp only [k_scan]
    exact ⟨sameData_refl recs, flagsMono_refl recs, by simp, by simp, trivial, rfl⟩
  | succ fuel ih =>
    intro k recs hbend
    by_cases h1 : bend < k
    · rw [k_scan_stop fcmp j bend fuel k recs h1]
      exact ⟨sameData_refl recs, flagsMono_refl recs, by simp, by simp, trivial, rfl⟩
    · by_cases h2 : (getRec recs k).processed_for_duplicates = true
      · rw [k_scan_skip fcmp j bend fuel k recs h1 h2]
        obtain ⟨hsd, hfm, hadds, hnd, hcf, hfl⟩ := ih (k + 1) recs hbend
        refine ⟨hsd, hfm, fun x hx => ?_, hnd, hcf, hfl⟩
        obtain ⟨ha1, ha2, ha3, ha4, ha5, ha6⟩ := hadds x hx
        exact ⟨by omega, ha2, ha3, ha4, ha5, ha6⟩
      · have h2f : (getRec recs k).processed_for_duplicates = false :=
          Bool.eq_false_iff.mpr h2
        have hkfalse : flagsOf recs k = false := h2f
        by_cases h3 : (getRec recs j).size ≠ (getRec recs k).size
        · rw [k_scan_mismatch_step fcmp j bend fuel k recs h1 h2f h3]
          obtain ⟨hsd, hfm, hadds, hnd, hcf, hfl⟩ := ih (k + 1) recs hbend
          refine ⟨hsd, hfm, fun x hx => ?_, hnd,
            ⟨fun x hu => absurd hu (by simp [usesEv]), hcf⟩, ?_⟩
          · obtain ⟨ha1, ha2, ha3, ha4, ha5, ha6⟩ := hadds x hx
            exact ⟨by omega, ha2, ha3, ha4, ha5, ha6⟩
          · simpa only [List.foldl_cons, applyEvF] using hfl
        · have hsz : (getRec recs j).size = (getRec recs k).size := not_ne_iff.mp h3
          have hklen : k < recs.length := by omega
          by_cases h4 : fcmp (getRec recs j) (getRec recs k) = 1
          · rw [k_scan_ident_step fcmp j bend fuel k recs h1 h2f hsz h4]
            have hsd2 := sameData_setProcessed recs k
            have hfm2 := flagsMono_setProcessed recs k
            have hlen2 : bend < (setProcessed recs k).length := by
              rw [hsd2.1]; exact hbend
            obtain ⟨hsd, hfm, hadds, hnd, hcf, hfl⟩ :=
              ih (k + 1) (setProcessed recs k) hlen2
            have hflagk2 : flagsOf (setProcessed recs k) k = true := by
              rw [flagsOf_setProcessed_of_lt recs k hklen]; simp [setF]
            have happ : applyEvF (flagsOf recs) (ev.cmpEv j k 1) =
                flagsOf (setProcessed recs k) := by
              rw [flagsOf_setProcessed_of_lt recs k hklen]
              simp [applyEvF]
            refine ⟨sameData_trans hsd2 hsd, flagsMono_trans hfm2 hfm,
              fun x hx => ?_, ?_, ?_, ?_⟩
            · rcases List.mem_cons.1 hx with rfl | hmem
              · exact ⟨le_refl x, by omega, hkfalse, hfm x hflagk2, hsz.symm, hR _ _ h4⟩
              · obtain ⟨ha1, ha2, ha3, ha4, ha5, ha6⟩ := hadds x hmem
                refine ⟨by omega, ha2, flags_false_mono hfm2 x ha3, ha4, ?_, ?_⟩
                · rw [← sameData_size hsd2 x, ← sameData_size hsd2 j]
                  exact ha5
                · exact hRd _ _ _ _ (hsd2.2 j) (hsd2.2 x) ha6
            · refine List.nodup_cons.mpr ⟨fun hkmem => ?_, hnd⟩
              have hflse := (hadds k hkmem).2.2.1
              rw [hflagk2] at hflse
              exact absurd hflse (by simp)
            · refine ⟨fun x hu => ?_, ?_⟩
              · have hxk : x = k := by simpa [usesEv] using hu
                subst hxk; exact hkfalse
              · rw [happ]; exact hcf
            · rw [List.foldl_cons, happ]; exact hfl
          · by_cases h5 : fcmp (getRec recs j) (getRec recs k) = -1
            · rw [k_scan_error_step fcmp j bend fuel k recs h1 h2f hsz h5]
              obtain ⟨hsd, hfm, hadds, hnd, hcf, hfl⟩ := ih (k + 1) recs hbend
              have happ1 : applyEvF (flagsOf recs) (ev.cmpEv j k (-1)) = flagsOf recs := by
                simp [applyEvF]
              refine ⟨hsd, hfm, fun x hx => ?_, hnd,
                ⟨fun x hu => ?_, fun x hu => absurd hu (by simp [usesEv]), ?_⟩, ?_⟩
              · obtain ⟨ha1, ha2, ha3, ha4, ha5, ha6⟩ := hadds x hx
                exact ⟨by omega, ha2, ha3, ha4, ha5, ha6⟩
              · have hxk : x = k := by simpa [usesEv] using hu
                subst hxk; exact hkfalse
              · rw [happ1,
                  show applyEvF (flagsOf recs) (ev.skipErr j k) = flagsOf recs from rfl]
                exact hcf
              · rw [List.foldl_cons, happ1, List.foldl_cons,
                  show applyEvF (flagsOf recs) (ev.skipErr j k) = flagsOf recs from rfl]
                exact hfl
            · rw [k_scan_diff_step fcmp j bend fuel k recs h1 h2f hsz h4 h5]
              obtain ⟨hsd, hfm, hadds, hnd, hcf, hfl⟩ := ih (k + 1) recs hbend
              have happ : applyEvF (flagsOf recs)
                  (ev.cmpEv j k (fcmp (getRec recs j) (getRec recs k))) = flagsOf recs := by
                simp [applyEvF, h4]
              refine ⟨hsd, hfm, fun x hx => ?_, hnd, ⟨fun x hu => ?_, ?_⟩, ?_⟩
              · obtain ⟨ha1, ha2, ha3, ha4, ha5, ha6⟩ := hadds x hx
                exact ⟨by omega, ha2, ha3, ha4, ha5, ha6⟩
              · have hxk : x = k := by simpa [usesEv] using hu
                subst hxk; exact hkfalse
              · rw [happ]; exact hcf
              · rw [List.foldl_cons, happ]; exact hfl

end KScanSpec

section JScanSpec

theorem j_scan_spec (fcmp : file_info → file_info → Int)
    (R : file_info → file_info → Prop)
    (hR : ∀ a b, fcmp a b = 1 → R a b)
    (hRd : ∀ a a' b b', dataEq a a' → dataEq b b' → R a b → R a' b')
    (hRrefl : ∀ a, R a a)
    (hRe : ∀ a b c, R a b → R a c → R b c) (bend : Nat) :
    ∀ (fuel j : Nat) (recs : List file_info), bend < recs.length →
      SameData recs (j_scan fcmp bend fuel j recs).1 ∧
      FlagsMono recs (j_scan fcmp bend fuel j recs).1 ∧
      (∀ s ∈ (j_scan fcmp bend fuel j recs).2.1,
        2 ≤ s.length ∧ s.Nodup ∧
          (∀ x ∈ s, x < recs.length ∧ flagsOf recs x = false ∧
            flagsOf (j_scan fcmp bend fuel j recs).1 x = true) ∧
          (∀ x ∈ s, ∀ y ∈ s, (getRec recs x).size = (getRec recs y).size ∧
            R (getRec recs x) (getRec recs y))) ∧
      ((j_scan fcmp bend fuel j recs).2.1).Pairwise (fun s t => ∀ x ∈ s, x ∉ t) ∧
      ConsistentF (flagsOf recs) (j_scan fcmp bend fuel j recs).2.2 ∧
      flagsOf (j_scan fcmp bend fuel j recs).1 =
        List.foldl applyEvF (flagsOf recs) (j_scan fcmp bend fuel j recs).2.2 := by
  intro fuel
  induction fuel with
  | zero =>
    intro j recs _
    simp only [j_scan]
    exact ⟨sameData_refl recs, flagsMono_refl recs, by simp, by simp, trivial, rfl⟩
  | succ fuel ih =>
    intro j recs hbend
    by_cases h1 : bend < j
    · rw [j_scan_stop fcmp bend fuel j recs h1]
      exact ⟨sameData_refl recs, flagsMono_refl recs, by simp, by simp, trivial, rfl⟩
    · by_cases h2 : (getRec recs j).processed_for_duplicates = true
      · rw [j_scan_skip fcmp bend fuel j recs h1 h2]
        exact ih (j + 1) recs hbend
      · have h2f : (getRec recs j).processed_for_duplicates = false :=
          Bool.eq_false_iff.mpr h2
        have hjfalse : flagsOf recs j = false := h2f
        have hjlen : j < recs.length := by omega
        rw [j_scan_seed_step fcmp bend fuel j recs h1 h2f]
        set rk := k_scan fcmp j bend (bend + 1) (j + 1) (setProcessed recs j) with hrk
        set rj := j_scan fcmp bend fuel (j + 1) rk.1 with hrj
        have hsd1 := sameData_setProcessed recs j
        have hfm1 := flagsMono_setProcessed recs j
        have hflagj1 : flagsOf (setProcessed recs j) j = true := by
          rw [flagsOf_setProcessed_of_lt recs j hjlen]; simp [setF]
        have hlen1 : bend < (setProcessed recs j).length := by
          rw [hsd1.1]; exact hbend
        obtain ⟨Ksd, Kfm, Kadds, Knd, Kcf, Kfl⟩ :=
          k_scan_spec fcmp R hR hRd j bend (bend + 1) (j + 1) (setProcessed recs j) hlen1
        have hsdk : SameData recs rk.1 := sameData_trans hsd1 Ksd
        have hfmk : FlagsMono recs rk.1 := flagsMono_trans hfm1 Kfm
        have hlenk : bend < rk.1.length := by rw [hsdk.1]; exact hbend
        obtain ⟨Jsd, Jfm, Jsets, Jpw, Jcf, Jfl⟩ := ih (j + 1) rk.1 hlenk
        have hfmSeed : ∀ x ∈ j :: rk.2.1, flagsOf rk.1 x = true := by
          intro x hx
          rcases List.mem_cons.1 hx with rfl | hmem
          · exact Kfm x hflagj1
          · exact (Kadds x hmem).2.2.2.1
        have hs0false : ∀ x ∈ j :: rk.2.1, flagsOf recs x = false := by
          intro x hx
          rcases List.mem_cons.1 hx with rfl | hmem
          · exact hjfalse
          · exact flags_false_mono hfm1 x (Kadds x hmem).2.2.1
        have hs0lt : ∀ x ∈ j :: rk.2.1, x < recs.length := by
          intro x hx
          rcases List.mem_cons.1 hx with rfl | hmem
          · exact hjlen
          · have := (Kadds x hmem).2.1; omega
        have hs0nodup : (j :: rk.2.1).Nodup := by
          refine List.nodup_cons.mpr ⟨fun hjm => ?_, Knd⟩
          have hjf := (Kadds j hjm).2.2.1
          rw [hflagj1] at hjf
          exact absurd hjf (by simp)
        have hs0R : ∀ x ∈ j :: rk.2.1,
            (getRec recs x).size = (getRec recs j).size ∧
              R (getRec recs j) (getRec recs x) := by
          intro x hx
          rcases List.mem_cons.1 hx with rfl | hmem
          · exact ⟨rfl, hRrefl _⟩
          · obtain ⟨-, -, -, -, hsize, hr⟩ := Kadds x hmem
            refine ⟨?_, ?_⟩
            · rw [← sameData_size hsd1 x, ← sameData_size hsd1 j]; exact hsize
            · exact hRd _ _ _ _ (hsd1.2 j) (hsd1.2 x) hr
        have hs0pair : ∀ x ∈ j :: rk.2.1, ∀ y ∈ j :: rk.2.1,
            (getRec recs x).size = (getRec recs y).size ∧
              R (getRec recs x) (getRec recs y) := by
          intro x hx y hy
          obtain ⟨hsx, hrx⟩ := hs0R x hx
          obtain ⟨hsy, hry⟩ := hs0R y hy
          exact ⟨hsx.trans hsy.symm, hRe _ _ _ hrx hry⟩
        have hJset' : ∀ s ∈ rj.2.1, 2 ≤ s.length ∧ s.Nodup ∧
            (∀ x ∈ s, x < recs.length ∧ flagsOf recs x = false ∧
              flagsOf rj.1 x = true) ∧
            (∀ x ∈ s, ∀ y ∈ s, (getRec recs x).size = (getRec recs y).size ∧
              R (getRec recs x) (getRec recs y)) := by
          intro s hs
          obtain ⟨hl, hnd, hflags, hpairs⟩ := Jsets s hs
          refine ⟨hl, hnd, fun x hx => ?_, fun x hx y hy => ?_⟩
          · obtain ⟨hx1, hx2, hx3⟩ := hflags x hx
            exact ⟨by rw [← hsdk.1]; exact hx1, flags_false_mono hfmk x hx2, hx3⟩
          · obtain ⟨hsz, hr⟩ := hpairs x hx y hy
            refine ⟨?_, ?_⟩
            · rw [← sameData_size hsdk x, ← sameData_size hsdk y]; exact hsz
            · exact hRd _ _ _ _ (hsdk.2 x) (hsdk.2 y) hr
        have hdisj : ∀ s' ∈ rj.2.1, ∀ x ∈ j :: rk.2.1, x ∉ s' := by
          intro s' hs' x hx hxs'
          have h1x := hfmSeed x hx
          have h2x := ((Jsets s' hs').2.2.1 x hxs').2.1
          rw [h1x] at h2x
          exact absurd h2x (by simp)
        have happS : applyEvF (flagsOf recs) (ev.seed j) =
            flagsOf (setProcessed recs j) := by
          rw [flagsOf_setProcessed_of_lt recs j hjlen]; simp [applyEvF]
        have hcfAll : ConsistentF (flagsOf recs) (ev.seed j :: (rk.2.2 ++ rj.2.2)) := by
          refine ⟨fun x hu => ?_, ?_⟩
          · have hxj : x = j := by simpa [usesEv] using hu
            subst hxj; exact hjfalse
          · rw [happS, consistentF_append]
            exact ⟨Kcf, by rw [← Kfl]; exact Jcf⟩
        have hflAll : flagsOf rj.1 =
            List.foldl applyEvF (flagsOf recs) (ev.seed j :: (rk.2.2 ++ rj.2.2)) := by
          rw [List.foldl_cons, happS, List.foldl_append, ← Kfl]
          exact Jfl
        split_ifs with hone
        · refine ⟨sameData_trans hsdk Jsd, flagsMono_trans hfmk Jfm, ?_, ?_,
            hcfAll, hflAll⟩
          · intro s hs
            rcases List.mem_cons.1 hs with rfl | hmem
            · exact ⟨by omega, hs0nodup,
                fun x hx => ⟨hs0lt x hx, hs0false x hx, Jfm x (hfmSeed x hx)⟩, hs0pair⟩
            · exact hJset' s hmem
          · exact List.pairwise_cons.mpr ⟨fun s' hs' x hx => hdisj s' hs' x hx, Jpw⟩
        · exact ⟨sameData_trans hsdk Jsd, flagsMono_trans hfmk Jfm,
            fun s hs => hJset' s hs, Jpw, hcfAll, hflAll⟩

end JScanSpec

section BlockEnd

theorem block_end_loop_ge (recs : List file_info) (cnt : Nat) (bsize : Int) :
    ∀ fuel be, be ≤ block_end_loop recs cnt bsize fuel be := by
  intro fuel
  induction fuel with
  | zero => intro be; simp [block_end_loop]
  | succ fuel ih =>
    intro be
    simp only [block_end_loop]
    split_ifs with h
    · exact le_trans (by omega) (ih (be + 1))
    · exact le_refl be

theorem block_end_loop_lt (recs : List file_info) (cnt : Nat) (bsize : Int) :
    ∀ fuel be, be < cnt → block_end_loop recs cnt bsize fuel be < cnt := by
  intro fuel
  induction fuel with
  | zero => intro be h; simpa [block_end_loop] using h
  | succ fuel ih =>
    intro be h
    simp only [block_end_loop]
    split_ifs with hg
    · exact ih (be + 1) hg.1
    · exact h

theorem block_end_loop_sizes (recs : List file_info) (cnt : Nat) (bsize : Int)
    (bs : Nat) :
    ∀ fuel be, bs ≤ be → (∀ x, bs ≤ x → x ≤ be → (getRec recs x).size = bsize) →
      ∀ x, bs ≤ x → x ≤ block_end_loop recs cnt bsize fuel be →
        (getRec recs x).size = bsize := by
  intro fuel
  induction fuel with
  | zero =>
    intro be hbe hall x hx1 hx2
    simp only [block_end_loop] at hx2
    exact hall x hx1 hx2
  | succ fuel ih =>
    intro be hbe hall x hx1 hx2
    simp only [block_end_loop] at hx2
    by_cases hg : be + 1 < cnt ∧ (getRec recs (be + 1)).size = bsize
    · rw [if_pos hg] at hx2
      refine ih (be + 1) (by omega) (fun y hy1 hy2 => ?_) x hx1 hx2
      by_cases hyb : y ≤ be
      · exact hall y hy1 hyb
      · have : y = be + 1 := by omega
        rw [this]; exact hg.2
    · rw [if_neg hg] at hx2
      exact hall x hx1 hx2

theorem block_end_ge (recs : List file_info) (bs : Nat) : bs ≤ block_end recs bs :=
  block_end_loop_ge recs recs.length (getRec recs bs).size recs.length bs

theorem block_end_lt (recs : List file_info) (bs : Nat) (h : bs < recs.length) :
    block_end recs bs < recs.length :=
  block_end_loop_lt recs recs.length (getRec recs bs).size recs.length bs h

theorem block_end_sizes (recs : List file_info) (bs : Nat) :
    ∀ x, bs ≤ x → x ≤ block_end recs bs →
      (getRec recs x).size = (getRec recs bs).size := by
  intro x hx1 hx2
  refine block_end_loop_sizes recs recs.length (getRec recs bs).size bs recs.length bs
    (le_refl bs) (fun y hy1 hy2 => ?_) x hx1 hx2
  have : y = bs := by omega
  rw [this]

end BlockEnd

section OuterScanSpec

theorem outer_scan_spec (fcmp : file_info → file_info → Int)
    (R : file_info → file_info → Prop)
    (hR : ∀ a b, fcmp a b = 1 → R a b)
    (hRd : ∀ a a' b b', dataEq a a' → dataEq b b' → R a b → R a' b')
    (hRrefl : ∀ a, R a a)
    (hRe : ∀ a b c, R a b → R a c → R b c) (cnt : Nat) :
    ∀ (fuel i : Nat) (recs : List file_info), cnt = recs.length →
      SameData recs (outer_scan fcmp cnt fuel i recs).1 ∧
      FlagsMono recs (outer_scan fcmp cnt fuel i recs).1 ∧
      (∀ s ∈ (outer_scan fcmp cnt fuel i recs).2.1,
        2 ≤ s.length ∧ s.Nodup ∧
          (∀ x ∈ s, x < recs.length ∧ flagsOf recs x = false ∧
            flagsOf (outer_scan fcmp cnt fuel i recs).1 x = true) ∧
          (∀ x ∈ s, ∀ y ∈ s, (getRec recs x).size = (getRec recs y).size ∧
            R (getRec recs x) (getRec recs y))) ∧
      ((outer_scan fcmp cnt fuel i recs).2.1).Pairwise (fun s t => ∀ x ∈ s, x ∉ t) ∧
      ConsistentF (flagsOf recs) (outer_scan fcmp cnt fuel i recs).2.2 ∧
      flagsOf (outer_scan fcmp cnt fuel i recs).1 =
        List.foldl applyEvF (flagsOf recs) (outer_scan fcmp cnt fuel i recs).2.2 := by
  intro fuel
  induction fuel with
  | zero =>
    intro i recs _
    simp only [outer_scan]
    exact ⟨sameData_refl recs, flagsMono_refl recs, by simp, by simp, trivial, rfl⟩
  | succ fuel ih =>
    intro i recs hcnt
    by_cases h1 : cnt ≤ i
    · rw [outer_scan_stop fcmp cnt fuel i recs h1]
      exact ⟨sameData_refl recs, flagsMono_refl recs, by simp, by simp, trivial, rfl⟩
    · by_cases h2 : (getRec recs i).processed_for_duplicates = true
      · rw [outer_scan_skip fcmp cnt fuel i recs h1 h2]
        exact ih (i + 1) recs hcnt
      · have h2f : (getRec recs i).processed_for_duplicates = false :=
          Bool.eq_false_iff.mpr h2
        by_cases h3 : i < block_end recs i
        · rw [outer_scan_block_step fcmp cnt fuel i recs h1 h2f h3]
          have hilen : i < recs.length := by omega
          have hbe : block_end recs i < recs.length := block_end_lt recs i hilen
          set rj := j_scan fcmp (block_end recs i) (block_end recs i + 1) i recs
            with hrjdef
          obtain ⟨Jsd, Jfm, Jsets, Jpw, Jcf, Jfl⟩ :=
            j_scan_spec fcmp R hR hRd hRrefl hRe (block_end recs i)
              (block_end recs i + 1) i recs hbe
          have hcnt' : cnt = rj.1.length := by rw [Jsd.1]; exact hcnt
          set ro := outer_scan fcmp cnt fuel (block_end recs i + 1) rj.1 with hrodef
          obtain ⟨Osd, Ofm, Osets, Opw, Ocf, Ofl⟩ :=
            ih (block_end recs i + 1) rj.1 hcnt'
          refine ⟨sameData_trans Jsd Osd, flagsMono_trans Jfm Ofm, ?_, ?_, ?_, ?_⟩
          · intro s hs
            rcases List.mem_append.1 hs with hmem | hmem
            · obtain ⟨hl, hnd, hflags, hpairs⟩ := Jsets s hmem
              refine ⟨hl, hnd, fun x hx => ?_, hpairs⟩
              obtain ⟨hx1, hx2, hx3⟩ := hflags x hx
              exact ⟨hx1, hx2, Ofm x hx3⟩
            · obtain ⟨hl, hnd, hflags, hpairs⟩ := Osets s hmem
              refine ⟨hl, hnd, fun x hx => ?_, fun x hx y hy => ?_⟩
              · obtain ⟨hx1, hx2, hx3⟩ := hflags x hx
                exact ⟨by rw [← Jsd.1]; exact hx1, flags_false_mono Jfm x hx2, hx3⟩
              · obtain ⟨hsz, hr⟩ := hpairs x hx y hy
                refine ⟨?_, ?_⟩
                · rw [← sameData_size Jsd x, ← sameData_size Jsd y]; exact hsz
                · exact hRd _ _ _ _ (Jsd.2 x) (Jsd.2 y) hr
          · rw [List.pairwise_append]
            refine ⟨Jpw, Opw, fun s hs t ht x hx => ?_⟩
            have h1x := ((Jsets s hs).2.2.1 x hx).2.2
            intro hxt
            have h2x := ((Osets t ht).2.2.1 x hxt).2.1
            rw [h1x] at h2x
            exact absurd h2x (by simp)
          · rw [consistentF_append]
            exact ⟨Jcf, by rw [← Jfl]; exact Ocf⟩
          · rw [List.foldl_append, ← Jfl]
            exact Ofl
        · rw [outer_scan_single_step fcmp cnt fuel i recs h1 h2f h3]
          exact ih (block_end recs i + 1) recs hcnt

end OuterScanSpec

section GrouperClaims

/-- The claim C1: on a catalog sorted by size then path, every duplicate set
emitted by the Grouper, run with the pure content comparator of a file system
fs, has at least 2 members, all members have identical size, and the Content
Comparator returns "identical" (1) for every pair of members of the set. -/
theorem grouper_sets_identical (fs : Bytes → Bytes) (l : file_list)
    (hsorted : catalog_sorted l.items = true) :
    ∀ s ∈ (find_and_print_duplicates (cmp_of fs) (some l)).sets,
      2 ≤ s.length ∧
        ∀ x ∈ s, ∀ y ∈ s,
          (getRec l.items x).size = (getRec l.items y).size ∧
            compare_files_content all_ok_env (fs (getRec l.items x).path)
              (fs (getRec l.items y).path) = 1 := by
  intro s hs
  by_cases hlen : l.items.length < 2
  · simp [find_and_print_duplicates, hlen] at hs
  · simp only [find_and_print_duplicates, if_neg hlen] at hs
    obtain ⟨-, -, Osets, -, -, -⟩ :=
      outer_scan_spec (cmp_of fs) (fun a b => fs a.path = fs b.path)
        (fun a b h => ((compare_files_content_all_ok (fs a.path) (fs b.path)).1).mp h)
        (fun a a' b b' ha hb h => by
          show fs a'.path = fs b'.path
          have h' : fs a.path = fs b.path := h
          rw [← ha.1, ← hb.1]; exact h')
        (fun a => rfl)
        (fun a b c h1 h2 => by
          show fs b.path = fs c.path
          have h1' : fs a.path = fs b.path := h1
          have h2' : fs a.path = fs c.path := h2
          rw [← h1']; exact h2')
        l.items.length l.items.length 0 l.items rfl
    obtain ⟨hl2, -, -, hpairs⟩ := Osets s hs
    refine ⟨hl2, fun x hx y hy => ?_⟩
    obtain ⟨hsz, hr⟩ := hpairs x hx y hy
    exact ⟨hsz,
      ((compare_files_content_all_ok (fs (getRec l.items x).path)
        (fs (getRec l.items y).path)).1).mpr hr⟩

/-- Witness for C1 at a concrete input: a sorted two-record catalog of files
with equal content yields the duplicate set of both records. -/
theorem grouper_sets_identical_witness :
    catalog_sorted
        (file_list.mk [⟨[1], 10, [], false, false⟩, ⟨[2], 10, [], false, false⟩]
          16).items = true ∧
      [0, 1] ∈ (find_and_print_duplicates (cmp_of (fun _ => [7]))
        (some (file_list.mk
          [⟨[1], 10, [], false, false⟩, ⟨[2], 10, [], false, false⟩] 16))).sets ∧
      2 ≤ ([0, 1] : List Nat).length :=
  ⟨by decide, by decide,
    (grouper_sets_identical (fun _ => [7])
        (file_list.mk [⟨[1], 10, [], false, false⟩, ⟨[2], 10, [], false, false⟩] 16)
        (by decide) [0, 1] (by decide)).1⟩

/-- The claim C7: throughout a whole run of the Grouper, every record is placed
in at most one duplicate set (each emitted set has no repeated index, and
distinct sets are disjoint), and once a record's processed_for_duplicates flag
is set — by a seeding event or an "identical" comparison — it is never again
used as a seed or as a comparison target; records flagged before the run are
never used at all. -/
theorem grouper_visited_invariant (fcmp : file_info → file_info → Int)
    (l : file_list) :
    (∀ s ∈ (find_and_print_duplicates fcmp (some l)).sets, s.Nodup) ∧
      ((find_and_print_duplicates fcmp (some l)).sets).Pairwise
        (fun s t => ∀ x ∈ s, x ∉ t) ∧
      (∀ t1 e t2 e2 t3,
        (find_and_print_duplicates fcmp (some l)).tr = t1 ++ e :: (t2 ++ e2 :: t3) →
        ∀ x, marksEv x e → ¬ usesEv x e2) ∧
      (∀ x, flagsOf l.items x = true →
        ∀ e ∈ (find_and_print_duplicates fcmp (some l)).tr, ¬ usesEv x e) := by
  by_cases hlen : l.items.length < 2
  · refine ⟨?_, ?_, ?_, ?_⟩
    · intro s hs
      simp [find_and_print_duplicates, hlen] at hs
    · simp [find_and_print_duplicates, hlen]
    · intro t1 e t2 e2 t3 h x hm hu
      simp only [find_and_print_duplicates, if_pos hlen] at h
      exact absurd h.symm (by simp)
    · intro x hx e he hu
      simp [find_and_print_duplicates, hlen] at he
  · obtain ⟨-, -, Osets, Opw, Ocf, -⟩ :=
      outer_scan_spec fcmp (fun _ _ => True) (fun _ _ _ => trivial)
        (fun _ _ _ _ _ _ _ => trivial) (fun _ => trivial) (fun _ _ _ _ _ => trivial)
        l.items.length l.items.length 0 l.items rfl
    refine ⟨?_, ?_, ?_, ?_⟩
    · intro s hs
      simp only [find_and_print_duplicates, if_neg hlen] at hs
      exact (Osets s hs).2.1
    · simp only [find_and_print_duplicates, if_neg hlen]
      exact Opw
    · intro t1 e t2 e2 t3 h x hm
      simp only [find_and_print_duplicates, if_neg hlen] at h
      exact consistentF_no_reuse t1 (flagsOf l.items) e t2 e2 t3 (h ▸ Ocf) x hm
    · intro x hx e he
      simp only [find_and_print_duplicates, if_neg hlen] at he
      exact consistentF_flagged_unused _ (flagsOf l.items) x Ocf hx e he

/-- Witness for C7 at a concrete input: in the two-record run whose trace is
seeding record 0 and matching record 1, the seeding event marks record 0 and
the later comparison does not use it. -/
theorem grouper_visited_invariant_witness :
    (find_and_print_duplicates (fun _ _ => 1)
        (some (file_list.mk
          [⟨[1], 10, [], false, false⟩, ⟨[2], 10, [], false, false⟩] 16))).tr =
      [ev.seed 0, ev.cmpEv 0 1 1] ∧
      marksEv 0 (ev.seed 0) ∧ ¬ usesEv 0 (ev.cmpEv 0 1 1) :=
  ⟨by decide, rfl,
    (grouper_visited_invariant (fun _ _ => 1)
        (file_list.mk [⟨[1], 10, [], false, false⟩, ⟨[2], 10, [], false, false⟩]
          16)).2.2.1
      [] (ev.seed 0) [] (ev.cmpEv 0 1 1) [] (by decide) 0 rfl⟩

end GrouperClaims

section NoMismatch

theorem k_scan_no_mismatch (fcmp : file_info → file_info → Int) (j bend : Nat) :
    ∀ (fuel k : Nat) (recs : List file_info), bend < recs.length →
      (∀ x, k ≤ x → x ≤ bend → (getRec recs x).size = (getRec recs j).size) →
      ∀ e ∈ (k_scan fcmp j bend fuel k recs).2.2, isMismatch e = false := by
  intro fuel
  induction fuel with
  | zero =>
    intro k recs _ _ e he
    simp only [k_scan] at he
    simp at he
  | succ fuel ih =>
    intro k recs hbend hsz e he
    by_cases h1 : bend < k
    · rw [k_scan_stop fcmp j bend fuel k recs h1] at he
      simp at he
    · by_cases h2 : (getRec recs k).processed_for_duplicates = true
      · rw [k_scan_skip fcmp j bend fuel k recs h1 h2] at he
        exact ih (k + 1) recs hbend (fun x hx1 hx2 => hsz x (by omega) hx2) e he
      · have h2f : (getRec recs k).processed_for_duplicates = false :=
          Bool.eq_false_iff.mpr h2
        have hszk : (getRec recs j).size = (getRec recs k).size :=
          (hsz k (le_refl k) (by omega)).symm
        by_cases h3 : (getRec recs j).size ≠ (getRec recs k).size
        · exact absurd hszk h3
        · by_cases h4 : fcmp (getRec recs j) (getRec recs k) = 1
          · rw [k_scan_ident_step fcmp j bend fuel k recs h1 h2f hszk h4] at he
            have hsd1 := sameData_setProcessed recs k
            rcases List.mem_cons.1 he with rfl | hmem
            · rfl
            · refine ih (k + 1) (setProcessed recs k)
                (by rw [hsd1.1]; exact hbend) (fun x hx1 hx2 => ?_) e hmem
              rw [sameData_size hsd1 x, sameData_size hsd1 j]
              exact hsz x (by omega) hx2
          · by_cases h5 : fcmp (getRec recs j) (getRec recs k) = -1
            · rw [k_scan_error_step fcmp j bend fuel k recs h1 h2f hszk h5] at he
              rcases List.mem_cons.1 he with rfl | he2
              · rfl
              · rcases List.mem_cons.1 he2 with rfl | hmem
                · rfl
                · exact ih (k + 1) recs hbend
                    (fun x hx1 hx2 => hsz x (by omega) hx2) e hmem
            · rw [k_scan_diff_step fcmp j bend fuel k recs h1 h2f hszk h4 h5] at he
              rcases List.mem_cons.1 he with rfl | hmem
              · rfl
              · exact ih (k + 1) recs hbend
                  (fun x hx1 hx2 => hsz x (by omega) hx2) e hmem

theorem j_scan_no_mismatch (fcmp : file_info → file_info → Int) (bend : Nat) :
    ∀ (fuel j : Nat) (recs : List file_info), bend < recs.length →
      (∀ x y, j ≤ x → x ≤ bend → j ≤ y → y ≤ bend →
        (getRec recs x).size = (getRec recs y).size) →
      ∀ e ∈ (j_scan fcmp bend fuel j recs).2.2, isMismatch e = false := by
  intro fuel
  induction fuel with
  | zero =>
    intro j recs _ _ e he
    simp only [j_scan] at he
    simp at he
  | succ fuel ih =>
    intro j recs hbend hsz e he
    by_cases h1 : bend < j
    · rw [j_scan_stop fcmp bend fuel j recs h1] at he
      simp at he
    · by_cases h2 : (getRec recs j).processed_for_duplicates = true
      · rw [j_scan_skip fcmp bend fuel j recs h1 h2] at he
        exact ih (j + 1) recs hbend
          (fun x y hx1 hx2 hy1 hy2 => hsz x y (by omega) hx2 (by omega) hy2) e he
      · have h2f : (getRec recs j).processed_for_duplicates = false :=
          Bool.eq_false_iff.mpr h2
        have hjlen : j < recs.length := by omega
        rw [j_scan_seed_step fcmp bend fuel j recs h1 h2f] at he
        have hsd1 := sameData_setProcessed recs j
        have hlen1 : bend < (setProcessed recs j).length := by
          rw [hsd1.1]; exact hbend
        have hktr : ∀ e ∈ (k_scan fcmp j bend (bend + 1) (j + 1)
            (setProcessed recs j)).2.2, isMismatch e = false := by
          refine k_scan_no_mismatch fcmp j bend (bend + 1) (j + 1)
            (setProcessed recs j) hlen1 (fun x hx1 hx2 => ?_)
          rw [sameData_size hsd1 x, sameData_size hsd1 j]
          exact hsz x j (by omega) hx2 (le_refl j) (by omega)
        obtain ⟨Ksd, -, -, -, -, -⟩ :=
          k_scan_spec fcmp (fun _ _ => True) (fun _ _ _ => trivial)
            (fun _ _ _ _ _ _ _ => trivial) j bend (bend + 1) (j + 1)
            (setProcessed recs j) hlen1
        have hsdk : SameData recs
            (k_scan fcmp j bend (bend + 1) (j + 1) (setProcessed recs j)).1 :=
          sameData_trans hsd1 Ksd
        have hjtr : ∀ e ∈ (j_scan fcmp bend fuel (j + 1)
            (k_scan fcmp j bend (bend + 1) (j + 1) (setProcessed recs j)).1).2.2,
            isMismatch e = false := by
          refine ih (j + 1)
            (k_scan fcmp j bend (bend + 1) (j + 1) (setProcessed recs j)).1
            (by rw [hsdk.1]; exact hbend) (fun x y hx1 hx2 hy1 hy2 => ?_)
          rw [sameData_size hsdk x, sameData_size hsdk y]
          exact hsz x y (by omega) hx2 (by omega) hy2
        have hmem2 : e ∈ ev.seed j ::
            ((k_scan fcmp j bend (bend + 1) (j + 1) (setProcessed recs j)).2.2 ++
              (j_scan fcmp bend fuel (j + 1)
                (k_scan fcmp j bend (bend + 1) (j + 1) (setProcessed recs j)).1).2.2) := by
          split_ifs at he with hone
          · exact he
          · exact he
        rcases List.mem_cons.1 hmem2 with rfl | hmem3
        · rfl
        · rcases List.mem_append.1 hmem3 with hmem4 | hmem4
          · exact hktr e hmem4
          · exact hjtr e hmem4

theorem outer_scan_no_mismatch (fcmp : file_info → file_info → Int) (cnt : Nat) :
    ∀ (fuel i : Nat) (recs : List file_info), cnt = recs.length →
      ∀ e ∈ (outer_scan fcmp cnt fuel i recs).2.2, isMismatch e = false := by
  intro fuel
  induction fuel with
  | zero =>
    intro i recs _ e he
    simp only [outer_scan] at he
    simp at he
  | succ fuel ih =>
    intro i recs hcnt e he
    by_cases h1 : cnt ≤ i
    · rw [outer_scan_stop fcmp cnt fuel i recs h1] at he
      simp at he
    · by_cases h2 : (getRec recs i).processed_for_duplicates = true
      · rw [outer_scan_skip fcmp cnt fuel i recs h1 h2] at he
        exact ih (i + 1) recs hcnt e he
      · have h2f : (getRec recs i).processed_for_duplicates = false :=
          Bool.eq_false_iff.mpr h2
        by_cases h3 : i < block_end recs i
        · rw [outer_scan_block_step fcmp cnt fuel i recs h1 h2f h3] at he
          have hilen : i < recs.length := by omega
          have hbe : block_end recs i < recs.length := block_end_lt recs i hilen
          have hjtr : ∀ e ∈ (j_scan fcmp (block_end recs i)
              (block_end recs i + 1) i recs).2.2, isMismatch e = false := by
            refine j_scan_no_mismatch fcmp (block_end recs i) (block_end recs i + 1)
              i recs hbe (fun x y hx1 hx2 hy1 hy2 => ?_)
            rw [block_end_sizes recs i x hx1 hx2, block_end_sizes recs i y hy1 hy2]
          obtain ⟨Jsd, -, -, -, -, -⟩ :=
            j_scan_spec fcmp (fun _ _ => True) (fun _ _ _ => trivial)
              (fun _ _ _ _ _ _ _ => trivial) (fun _ => trivial)
              (fun _ _ _ _ _ => trivial) (block_end recs i) (block_end recs i + 1)
              i recs hbe
          have hotr : ∀ e ∈ (outer_scan fcmp cnt fuel (block_end recs i + 1)
              (j_scan fcmp (block_end recs i) (block_end recs i + 1) i recs).1).2.2,
              isMismatch e = false :=
            ih (block_end recs i + 1)
              (j_scan fcmp (block_end recs i) (block_end recs i + 1) i recs).1
              (by rw [Jsd.1]; exact hcnt)
          rcases List.mem_append.1 he with hmem | hmem
          · exact hjtr e hmem
          · exact hotr e hmem
        · rw [outer_scan_single_step fcmp cnt fuel i recs h1 h2f h3] at he
          exact ih (block_end recs i + 1) recs hcnt e he

/-- The claim C9: on a catalog sorted by size then path, the Grouper's internal
"File sizes differ within supposed same-size block" branch is unreachable —
no run ever records that diagnostic (the block-extension loop only admits
records of the block's size, so the theorem in fact needs no sortedness). -/
theorem grouper_no_internal_mismatch (fcmp : file_info → file_info → Int)
    (l : file_list) (hsorted : catalog_sorted l.items = true) :
    ∀ e ∈ (find_and_print_duplicates fcmp (some l)).tr, isMismatch e = false := by
  intro e he
  by_cases hlen : l.items.length < 2
  · simp [find_and_print_duplicates, hlen] at he
  · simp only [find_and_print_duplicates, if_neg hlen] at he
    exact outer_scan_no_mismatch fcmp l.items.length l.items.length 0 l.items rfl e he

/-- Witness for C9 at a concrete input: a sorted two-record same-size catalog
run with an always-identical comparator produces a trace whose first event is
not the internal mismatch diagnostic. -/
theorem grouper_no_internal_mismatch_witness :
    catalog_sorted
        (file_list.mk [⟨[1], 10, [], false, false⟩, ⟨[2], 10, [], false, false⟩]
          16).items = true ∧
      ev.seed 0 ∈ (find_and_print_duplicates (fun _ _ => 1)
        (some (file_list.mk
          [⟨[1], 10, [], false, false⟩, ⟨[2], 10, [], false, false⟩] 16))).tr ∧
      isMismatch (ev.seed 0) = false :=
  ⟨by decide, by decide,
    grouper_no_internal_mismatch (fun _ _ => 1)
      (file_list.mk [⟨[1], 10, [], false, false⟩, ⟨[2], 10, [], false, false⟩] 16)
      (by decide) (ev.seed 0) (by decide)⟩

end NoMismatch

section ErrorStepWitness

/-- Witness for C4 at a concrete input: an unprocessed same-size pair (0, 1)
on which the comparator reports -1 leaves the records and the current set
untouched, records the comparison and the skip diagnostic, and continues at
k = 2. -/
theorem k_scan_error_step_witness :
    (¬(1 : Nat) < 1) ∧
      (getRec [(⟨[1], 10, [], false, false⟩ : file_info),
        ⟨[2], 10, [], false, false⟩] 1).processed_for_duplicates = false ∧
      (getRec [(⟨[1], 10, [], false, false⟩ : file_info),
          ⟨[2], 10, [], false, false⟩] 0).size =
        (getRec [(⟨[1], 10, [], false, false⟩ : file_info),
          ⟨[2], 10, [], false, false⟩] 1).size ∧
      k_scan (fun _ _ => -1) 0 1 (0 + 1) 1
          [(⟨[1], 10, [], false, false⟩ : file_info), ⟨[2], 10, [], false, false⟩] =
        ((k_scan (fun _ _ => -1) 0 1 0 (1 + 1)
            [(⟨[1], 10, [], false, false⟩ : file_info),
              ⟨[2], 10, [], false, false⟩]).1,
          (k_scan (fun _ _ => -1) 0 1 0 (1 + 1)
            [(⟨[1], 10, [], false, false⟩ : file_info),
              ⟨[2], 10, [], false, false⟩]).2.1,
          ev.cmpEv 0 1 (-1) :: ev.skipErr 0 1 ::
            (k_scan (fun _ _ => -1) 0 1 0 (1 + 1)
              [(⟨[1], 10, [], false, false⟩ : file_info),
                ⟨[2], 10, [], false, false⟩]).2.2) :=
  ⟨by decide, by decide, by decide,
    k_scan_error_step (fun _ _ => -1) 0 1 0 1
      [(⟨[1], 10, [], false, false⟩ : file_info), ⟨[2], 10, [], false, false⟩]
      (by decide) (by decide) (by decide) rfl⟩

end ErrorStepWitness
